import Mathlib

/-!
Verification of the token search-parameter indexing and query-compilation engine
(`TokenTable` and its helpers).  The TypeScript source is embedded shallowly:
pure functions become Lean functions, JavaScript string truthiness, trimming and
lower-casing are made explicit, and the database table is a list of rows.
External collaborators that are not part of the provided sources
(`@medplum/core` string helpers, the SQL expression AST and renderer, the search
parameter registry and FHIRPath evaluator) are modelled from the spec, each with
a doc comment saying so.
-/

namespace Medplum

/-! ## JavaScript string primitives (explicit models) -/

/-- Model of JavaScript `toLowerCase` / `toLocaleLowerCase`: character-wise lower-casing. -/
def lowerString (s : String) : String := ⟨s.data.map Char.toLower⟩

/-- Characters of a string after trimming whitespace from both ends
(model of JavaScript `String.prototype.trim`). -/
def trimChars (l : List Char) : List Char :=
  ((l.dropWhile Char.isWhitespace).reverse.dropWhile Char.isWhitespace).reverse

/-- Model of JavaScript `trim`. -/
def trimString (s : String) : String := ⟨trimChars s.data⟩

/-- JavaScript truthiness of a `string | undefined` value:
`undefined` and the empty string are falsy. -/
def strTruthy : Option String → Bool
  | none => false
  | some s => s ≠ ""

/-- `s.endsWith suffix` on the character lists. -/
def endsWithString (s suffix : String) : Bool :=
  suffix.data.isSuffixOf s.data

/-- Modelled from the spec: `splitSearchOnComma` from `@medplum/core` (not part of the
provided sources) splits a search value on unescaped commas; a backslash-escaped
comma stays part of the current option. -/
def splitOnCommaAux : List Char → List Char → List (List Char)
  | acc, [] => [acc.reverse]
  | acc, [c] => if c = ',' then [acc.reverse, []] else [(c :: acc).reverse]
  | acc, c :: d :: rest =>
    if c = '\\' ∧ d = ',' then splitOnCommaAux (',' :: acc) rest
    else if c = ',' then acc.reverse :: splitOnCommaAux [] (d :: rest)
    else splitOnCommaAux (c :: acc) (d :: rest)

/-- Modelled from the spec: split a raw filter value on unescaped commas into options. -/
def splitSearchOnComma (s : String) : List String :=
  (splitOnCommaAux [] s.data).map fun l => ⟨l⟩

/-- Split a list at the first occurrence of `delim`, if any. -/
def splitOnceChars (delim : Char) : List Char → Option (List Char × List Char)
  | [] => none
  | c :: rest =>
    if c = delim then some ([], rest)
    else (splitOnceChars delim rest).map fun p => (c :: p.1, p.2)

/-- Modelled from the spec: `splitN` from `@medplum/core` (not part of the provided
sources) splits on a delimiter into at most `n` parts, the last part keeping any
remaining delimiters; the token code only uses `n = 2` (split on the first `|`). -/
def splitN (s : String) (delim : Char) : Nat → List String
  | 0 => [s]
  | 1 => [s]
  | n + 2 =>
    match splitOnceChars delim s.data with
    | none => [s]
    | some (a, b) => (⟨a⟩ : String) :: splitN ⟨b⟩ delim (n + 1)

/-! ## Data model -/

/-- Element type codes that `getTokenIndexType` distinguishes. -/
inductive PropertyType where
  | contactPoint
  | identifier
  | codeableConcept
  | coding
  | other
deriving DecidableEq, Repr

/-- A search parameter, with the element-type metadata folded in:
`elementDefinitions` models the result of the external
`getSearchParameterDetails(resourceType, searchParam).elementDefinitions`
(each entry is one element definition's list of type codes; `[]` models both a
missing and an empty `elementDefinitions`). -/
structure SearchParam where
  code : String
  type : String
  elementDefinitions : List (List PropertyType)
deriving DecidableEq, Repr

/-- An extracted token tuple, as queued by `buildSimpleToken`. -/
structure Token where
  code : String
  system : Option String
  value : Option String
deriving DecidableEq, Repr

/-- A stored row of a per-resource-type token table
(columns `resourceId`, `code`, `system`, `value`). -/
structure Row where
  resourceId : String
  code : String
  system : Option String
  value : Option String
deriving DecidableEq, Repr

/-- FHIR `Identifier` (the fields used by the indexer). -/
structure Identifier where
  system : Option String
  value : Option String
deriving DecidableEq, Repr

/-- FHIR `Coding` (the fields used by the indexer). -/
structure Coding where
  system : Option String
  code : Option String
  display : Option String
deriving DecidableEq, Repr

/-- FHIR `CodeableConcept` (the fields used by the indexer). -/
structure CodeableConcept where
  text : Option String
  coding : Option (List Coding)
deriving DecidableEq, Repr

/-- FHIR `ContactPoint` (the fields used by the indexer). -/
structure ContactPoint where
  system : Option String
  value : Option String
deriving DecidableEq, Repr

/-- A typed value produced by evaluating a search parameter's path expression,
tagged by the runtime shape `buildTokens` switches on.  The `scalar` case models
the `default` arm (`value?.toString()` of a string/number/boolean/code). -/
inductive TypedValue where
  | identifier (v : Option Identifier)
  | codeableConcept (v : Option CodeableConcept)
  | coding (v : Option Coding)
  | contactPoint (v : Option ContactPoint)
  | scalar (v : Option String)
deriving DecidableEq, Repr

/-- The filter operators the token code distinguishes (`Operator` from `@medplum/core`). -/
inductive FhirOperator where
  | EQUALS
  | NOT_EQUALS
  | NOT
  | TEXT
  | CONTAINS
  | IN
  | NOT_IN
  | MISSING
  | PRESENT
  | IDENTIFIER
deriving DecidableEq, Repr

/-- A search filter: code, operator and raw value. -/
structure Filter where
  code : String
  operator : FhirOperator
  value : String
deriving DecidableEq, Repr

/-- Classification of a token search parameter (`TokenIndexTypes`). -/
inductive TokenIndexType where
  | caseSensitive
  | caseInsensitive
deriving DecidableEq, Repr

/-- The compile-time error class (`OperationOutcomeError(badRequest(...))` for a
malformed boolean literal on `missing` / `present`). -/
inductive CompileError where
  | invalidFilterValue
deriving DecidableEq, Repr

/-! ## Classification (`getTokenIndexType`) -/

/-- `getTokenIndexType`: classification of a search parameter, from the source.
The external `getSearchParameterDetails` is modelled by the
`elementDefinitions` field of `SearchParam`. -/
def getTokenIndexType (searchParam : SearchParam) : Option TokenIndexType :=
  if searchParam.type ≠ "token" then none
  else if endsWithString searchParam.code ":identifier" then some .caseSensitive
  else if searchParam.elementDefinitions.isEmpty then none
  else if searchParam.elementDefinitions.any fun ed => ed.any (· = PropertyType.contactPoint) then
    some .caseInsensitive
  else if searchParam.elementDefinitions.any fun ed =>
      ed.any fun t => t = PropertyType.identifier ∨ t = PropertyType.codeableConcept ∨
        t = PropertyType.coding then
    some .caseSensitive
  else none

/-- `isCaseSensitiveSearchParameter` from the source. -/
def isCaseSensitiveSearchParameter (param : SearchParam) : Bool :=
  getTokenIndexType param = some .caseSensitive

/-- `isIndexed` from the source: true iff classification is not "not indexed". -/
def isIndexed (searchParam : SearchParam) : Bool :=
  (getTokenIndexType searchParam).isSome

/-! ## Token extraction -/

/-- `buildSimpleToken` from the source: queue a token when there is a (truthy)
system or value and no identical `(code, system, value)` tuple is queued yet;
the stored value is lower-cased when the parameter is case-insensitive. -/
def buildSimpleToken (result : List Token) (searchParam : SearchParam) (caseSensitive : Bool)
    (system : Option String) (value : Option String) : List Token :=
  if (strTruthy system || strTruthy value)
      && !(result.any fun t => t.code == searchParam.code && t.system == system && t.value == value) then
    result ++ [{ code := searchParam.code
                 system := system
                 value := if strTruthy value && !caseSensitive then value.map lowerString else value }]
  else
    result

/-- `buildIdentifierToken` from the source. -/
def buildIdentifierToken (result : List Token) (searchParam : SearchParam) (caseSensitive : Bool)
    (identifier : Option Identifier) : List Token :=
  buildSimpleToken result searchParam caseSensitive (identifier.bind (·.system))
    (identifier.bind (·.value))

/-- `buildCodingToken` from the source: a token for the display (under system
`"text"`) when the display is truthy, plus the `(system, code)` token. -/
def buildCodingToken (result : List Token) (searchParam : SearchParam) (caseSensitive : Bool)
    (coding : Option Coding) : List Token :=
  match coding with
  | none => result
  | some c =>
    let result := if strTruthy c.display then
        buildSimpleToken result searchParam caseSensitive (some "text") c.display
      else result
    buildSimpleToken result searchParam caseSensitive c.system c.code

/-- `buildCodeableConceptToken` from the source: a token for the text (under
system `"text"`) when the text is truthy, then one per contained coding. -/
def buildCodeableConceptToken (result : List Token) (searchParam : SearchParam)
    (caseSensitive : Bool) (codeableConcept : Option CodeableConcept) : List Token :=
  let result := if strTruthy (codeableConcept.bind (·.text)) then
      buildSimpleToken result searchParam caseSensitive (some "text") (codeableConcept.bind (·.text))
    else result
  match codeableConcept.bind (·.coding) with
  | some codings => codings.foldl (fun acc c => buildCodingToken acc searchParam caseSensitive (some c)) result
  | none => result

/-- `buildContactPointToken` from the source: contact point values are
lower-cased unconditionally when truthy. -/
def buildContactPointToken (result : List Token) (searchParam : SearchParam) (caseSensitive : Bool)
    (contactPoint : Option ContactPoint) : List Token :=
  buildSimpleToken result searchParam caseSensitive (contactPoint.bind (·.system))
    (let v := contactPoint.bind (·.value)
     if strTruthy v then v.map lowerString else v)

/-- `buildTokens` from the source: dispatch on the runtime shape of the typed value. -/
def buildTokens (result : List Token) (searchParam : SearchParam) (typedValue : TypedValue) :
    List Token :=
  let caseSensitive := isCaseSensitiveSearchParameter searchParam
  match typedValue with
  | .identifier v => buildIdentifierToken result searchParam caseSensitive v
  | .codeableConcept v => buildCodeableConceptToken result searchParam caseSensitive v
  | .coding v => buildCodingToken result searchParam caseSensitive v
  | .contactPoint v => buildContactPointToken result searchParam caseSensitive v
  | .scalar v => buildSimpleToken result searchParam caseSensitive none v

/-- `buildTokensForSearchParameter` from the source; the external
`evalFhirPathTyped(searchParam.expression, resource)` is modelled by passing the
resulting typed values directly. -/
def buildTokensForSearchParameter (result : List Token) (searchParam : SearchParam)
    (typedValues : List TypedValue) : List Token :=
  typedValues.foldl (fun acc tv => buildTokens acc searchParam tv) result

/-- Modelled from the spec: `deriveIdentifierSearchParameter` (defined in `./util`,
not part of the provided sources) synthesizes a token-type variant of a
reference parameter whose code is the original code suffixed with
`":identifier"`. -/
def deriveIdentifierSearchParameter (param : SearchParam) : SearchParam :=
  { code := param.code ++ ":identifier"
    type := "token"
    elementDefinitions := [[PropertyType.identifier]] }

/-- One search parameter of a resource type together with the typed values its
path expression — and the derived `:identifier` variant's expression — yield on
the resource.  Modelled from the spec: the search parameter registry and the
path expression evaluator are external collaborators. -/
structure ParamEval where
  param : SearchParam
  typedValues : List TypedValue
  derivedTypedValues : List TypedValue
deriving DecidableEq, Repr

/-- A resource, as seen by the indexer: type tag, id, and the evaluated search
parameters. -/
structure ResourceModel where
  resourceType : String
  id : String
  params : List ParamEval
deriving DecidableEq, Repr

/-- `getTokens` from the source: every token-classified parameter contributes,
and every reference parameter contributes through its derived `:identifier`
variant. -/
def getTokens (resource : ResourceModel) : List Token :=
  resource.params.foldl
    (fun result pe =>
      let result := if (getTokenIndexType pe.param).isSome then
          buildTokensForSearchParameter result pe.param pe.typedValues
        else result
      if pe.param.type = "reference" then
        buildTokensForSearchParameter result (deriveIdentifierSearchParameter pe.param)
          pe.derivedTypedValues
      else result)
    []

/-! ## Token store (`TokenTable.indexResource`) -/

/-- `token.system?.trim?.() || undefined`: trim, and coalesce the empty string to
absent. -/
def jsTrimOrNull : Option String → Option String
  | none => none
  | some s => let t := trimString s; if t = "" then none else some t

/-- The row inserted for one extracted token. -/
def storeTokenRow (resourceId : String) (token : Token) : Row :=
  { resourceId := resourceId
    code := token.code
    system := jsTrimOrNull token.system
    value := jsTrimOrNull token.value }

/-- `TokenTable.indexResource` from the source: on update, first delete every
row of this resource; then insert the freshly extracted token rows.  The
database table is modelled as a list of rows. -/
def indexResource (table : List Row) (resource : ResourceModel) (create : Bool) : List Row :=
  let remaining := if create then table else table.filter fun r => r.resourceId ≠ resource.id
  remaining ++ (getTokens resource).map (storeTokenRow resource.id)

/-! ## Predicate compiler (`TokenTable.buildWhere`) -/

/-- `getTableName` from the source: the token table of a resource type. -/
def getTableName (resourceType : String) : String :=
  resourceType ++ "_Token"

/-- `shouldCompareTokenValue` from the source: true if the filter value is
compared to the `value` column. -/
def shouldCompareTokenValue (operator : FhirOperator) : Bool :=
  match operator with
  | .MISSING | .PRESENT | .IN | .NOT_IN | .IDENTIFIER => false
  | _ => true

/-- `shouldTokenRowExist` from the source: whether the compiled predicate tests
for the existence (true) or the absence (false) of a matching token row; a
`missing` / `present` literal other than `"true"` / `"false"`
(case-insensitively) is an `InvalidFilterValue` error. -/
def shouldTokenRowExist (filter : Filter) : Except CompileError Bool :=
  if shouldCompareTokenValue filter.operator then
    if filter.operator = .NOT ∨ filter.operator = .NOT_EQUALS then .ok false else .ok true
  else if filter.operator = .MISSING then
    if lowerString filter.value = "true" then .ok false
    else if lowerString filter.value = "false" then .ok true
    else .error .invalidFilterValue
  else if filter.operator = .PRESENT then
    if lowerString filter.value = "true" then .ok true
    else if lowerString filter.value = "false" then .ok false
    else .error .invalidFilterValue
  else .ok true

/-- Modelled from the spec: `escapeLikeString` from the SQL module (not part of
the provided sources) escapes the SQL `LIKE` metacharacters before embedding a
value in a pattern. -/
def escapeLikeString (s : String) : String :=
  ⟨s.data.foldr (fun c acc => if c = '\\' ∨ c = '%' ∨ c = '_' then '\\' :: c :: acc else c :: acc) []⟩

/-- The fragment of the SQL expression AST that the token code builds
(modelled from the spec's closed node set; the SQL module is not part of the
provided sources).  `colEqVal` with an absent value models the rendered
`IS NULL` comparison; `existsQuery` models
`SqlFunction('EXISTS', [SelectQuery(table).whereExpr(...)])`. -/
inductive SqlExpr where
  | colEqCol (table1 column1 table2 column2 : String)
  | colEqVal (table column : String) (value : Option String)
  | colIn (table column : String) (values : List String)
  | colLike (table column : String) (pattern : String)
  | colTsvectorSimple (table column : String) (query : String)
  | inValueSet (table column : String) (url : String)
  | conj (sub : List SqlExpr)
  | disj (sub : List SqlExpr)
  | neg (e : SqlExpr)
  | existsQuery (table : String) (whereExpr : SqlExpr)
deriving Repr

/-- Context for building a WHERE condition on the token table (`FilterContext`). -/
structure FilterContext where
  searchParam : SearchParam
  lookupTableName : String
  caseSensitive : Bool
  filter : Filter
deriving Repr

/-- `buildValueCondition` from the source: the per-option condition on the
`value` column (the option is trimmed first). -/
def buildValueCondition (context : FilterContext) (value : String) : SqlExpr :=
  let tableName := context.lookupTableName
  let operator := context.filter.operator
  let value := trimString value
  if operator = .TEXT then
    .conj [.colEqVal tableName "system" (some "text"),
           .colTsvectorSimple tableName "value" (value ++ ":*")]
  else if operator = .CONTAINS then
    .colLike tableName "value" (escapeLikeString value ++ "%")
  else if context.caseSensitive then
    .colEqVal tableName "value" (some value)
  else
    .colIn tableName "value" [value, lowerString value]

/-- `buildInValueSetCondition` from the source: membership of the `system`
column in the reference array of the first `ValueSet` with the given url. -/
def buildInValueSetCondition (tableName : String) (value : String) : SqlExpr :=
  .inValueSet tableName "system" value

/-- `buildWhereCondition` from the source: the condition for one comma-separated
option, or none when the operator needs no condition on the token table. -/
def buildWhereCondition (context : FilterContext) (query : String) : Option SqlExpr :=
  match splitN query '|' 2 with
  | [systemPart, valuePart] =>
    let system : Option String := if systemPart = "" then none else some systemPart
    let systemCondition := SqlExpr.colEqVal context.lookupTableName "system" system
    if valuePart ≠ "" then some (.conj [systemCondition, buildValueCondition context valuePart])
    else some systemCondition
  | _ =>
    if context.filter.operator = .IN then
      some (buildInValueSetCondition context.lookupTableName query)
    else if context.filter.operator = .NOT_IN then
      some (.neg (buildInValueSetCondition context.lookupTableName query))
    else if shouldCompareTokenValue context.filter.operator then
      some (buildValueCondition context query)
    else
      none

/-- `buildWhereExpression` from the source: the disjunction of the per-option
conditions, or none when no option contributes one. -/
def buildWhereExpression (context : FilterContext) : Option SqlExpr :=
  match (splitSearchOnComma context.filter.value).filterMap (buildWhereCondition context) with
  | [] => none
  | subExpressions => some (.disj subExpressions)

/-- The EXISTS test built by `buildWhere`: base correlation (resource id and
filter code) plus the optional per-option disjunction, wrapped in EXISTS over
the token table. -/
def tokenExistsExpression (resourceType resourceTableName : String) (param : SearchParam)
    (filter : Filter) : SqlExpr :=
  let lookupTableName := getTableName resourceType
  let caseSensitive := isCaseSensitiveSearchParameter param
  let whereExpression := buildWhereExpression
    { searchParam := param, lookupTableName := lookupTableName
      caseSensitive := caseSensitive, filter := filter }
  .existsQuery lookupTableName
    (.conj ([SqlExpr.colEqCol resourceTableName "id" lookupTableName "resourceId",
             SqlExpr.colEqVal lookupTableName "code" (some filter.code)] ++ whereExpression.toList))

/-- `TokenTable.buildWhere` from the source: the EXISTS test, negated when the
operator semantics require tuple absence; fails on a malformed `missing` /
`present` boolean literal. -/
def buildWhere (resourceType resourceTableName : String) (param : SearchParam) (filter : Filter) :
    Except CompileError SqlExpr :=
  match shouldTokenRowExist filter with
  | .error e => .error e
  | .ok true => .ok (tokenExistsExpression resourceType resourceTableName param filter)
  | .ok false => .ok (.neg (tokenExistsExpression resourceType resourceTableName param filter))

/-! ## Semantics of the compiled expressions

The SQL renderer and executor are not part of the provided sources; the
evaluation below is modelled from the spec: a compiled predicate is evaluated
for one subject resource (`resId`) against the contents of the token table, with
SQL three-valued comparisons collapsing to false on NULL operands (except the
rendered `IS NULL` case of `colEqVal` with an absent value). -/

/-- SQL `LIKE` pattern matching (`%`, `_`, backslash escapes). -/
def likeMatch : List Char → List Char → Bool
  | [], [] => true
  | [], _ :: _ => false
  | '%' :: ps, [] => likeMatch ps []
  | '%' :: ps, c :: ts => likeMatch ps (c :: ts) || likeMatch ('%' :: ps) ts
  | '_' :: _, [] => false
  | '_' :: ps, _ :: ts => likeMatch ps ts
  | '\\' :: _ :: _, [] => false
  | '\\' :: p :: ps, c :: ts => c == p && likeMatch ps ts
  | _ :: _, [] => false
  | p :: ps, c :: ts => c == p && likeMatch ps ts
termination_by p t => (p.length, t.length)

/-- Modelled from the spec: the `TSVECTOR_SIMPLE` prefix text match — some word
of the stored value starts with the query prefix (the query is the option
followed by `":*"`). -/
def tsvectorSimpleMatch (query : String) (target : Option String) : Bool :=
  match target with
  | none => false
  | some t =>
    let p := query.data.takeWhile fun c => c ≠ ':'
    (t.data.splitOnP fun c => !c.isAlphanum).any fun w => p.isPrefixOf w

/-- Resolve a column reference: the outer resource table contributes only its
`id`; the token table contributes the columns of the current row. -/
def lookupCol (resourceTableName resId tokenTableName : String) (row : Option Row)
    (table column : String) : Option String :=
  if table = resourceTableName ∧ column = "id" then some resId
  else
    match row with
    | none => none
    | some r =>
      if table = tokenTableName then
        if column = "resourceId" then some r.resourceId
        else if column = "code" then some r.code
        else if column = "system" then r.system
        else if column = "value" then r.value
        else none
      else none

mutual

/-- Evaluate a compiled expression for subject resource `resId` against the
token table contents; `valueSets` models the external ValueSet resolver
(canonical url to reference array of the first matching definition). -/
def evalExpr (valueSets : String → Option (List String)) (resourceTableName resId : String)
    (table : List Row) (tokenTableName : String) (row : Option Row) : SqlExpr → Bool
  | .colEqCol t1 c1 t2 c2 =>
    match lookupCol resourceTableName resId tokenTableName row t1 c1,
        lookupCol resourceTableName resId tokenTableName row t2 c2 with
    | some a, some b => a == b
    | _, _ => false
  | .colEqVal t c v =>
    match lookupCol resourceTableName resId tokenTableName row t c, v with
    | some a, some b => a == b
    | none, none => true
    | _, _ => false
  | .colIn t c vs =>
    match lookupCol resourceTableName resId tokenTableName row t c with
    | some a => vs.contains a
    | none => false
  | .colLike t c pat =>
    match lookupCol resourceTableName resId tokenTableName row t c with
    | some a => likeMatch pat.data a.data
    | none => false
  | .colTsvectorSimple t c q =>
    tsvectorSimpleMatch q (lookupCol resourceTableName resId tokenTableName row t c)
  | .inValueSet t c url =>
    match lookupCol resourceTableName resId tokenTableName row t c, valueSets url with
    | some a, some refs => refs.contains a
    | _, _ => false
  | .conj sub => evalExprAll valueSets resourceTableName resId table tokenTableName row sub
  | .disj sub => evalExprAny valueSets resourceTableName resId table tokenTableName row sub
  | .neg e => !evalExpr valueSets resourceTableName resId table tokenTableName row e
  | .existsQuery t inner =>
    table.any fun r => evalExpr valueSets resourceTableName resId table t (some r) inner

/-- Conjunction: every subexpression holds. -/
def evalExprAll (valueSets : String → Option (List String)) (resourceTableName resId : String)
    (table : List Row) (tokenTableName : String) (row : Option Row) : List SqlExpr → Bool
  | [] => true
  | e :: rest => evalExpr valueSets resourceTableName resId table tokenTableName row e
      && evalExprAll valueSets resourceTableName resId table tokenTableName row rest

/-- Disjunction: some subexpression holds. -/
def evalExprAny (valueSets : String → Option (List String)) (resourceTableName resId : String)
    (table : List Row) (tokenTableName : String) (row : Option Row) : List SqlExpr → Bool
  | [] => false
  | e :: rest => evalExpr valueSets resourceTableName resId table tokenTableName row e
      || evalExprAny valueSets resourceTableName resId table tokenTableName row rest

end

/-- Evaluate a compiled predicate (top level: outside any subquery row). -/
def evalPredicate (valueSets : String → Option (List String)) (resourceTableName resId : String)
    (table : List Row) (e : SqlExpr) : Bool :=
  evalExpr valueSets resourceTableName resId table "" none e

/-- An empty ValueSet resolver (no claim exercises `:in` / `:not-in` membership). -/
def noValueSets : String → Option (List String) := fun _ => none

/-! ## Concrete fixtures used by the claim theorems -/

/-- The `identifier` token search parameter (Identifier-typed, hence case-sensitive). -/
def identParam : SearchParam := ⟨"identifier", "token", [[.identifier]]⟩

/-- A CodeableConcept-typed token search parameter with code `code`. -/
def ccParam : SearchParam := ⟨"code", "token", [[.codeableConcept]]⟩

/-- A Coding-typed token search parameter with code `code`. -/
def codingParam : SearchParam := ⟨"code", "token", [[.coding]]⟩

/-- A CodeableConcept-typed token search parameter with code `c`. -/
def cParam : SearchParam := ⟨"c", "token", [[.codeableConcept]]⟩

/-- A resource carrying `Identifier{system: http://example.org, value: 123}`. -/
def resA : ResourceModel :=
  ⟨"Patient", "A", [⟨identParam, [.identifier (some ⟨some "http://example.org", some "123"⟩)], []⟩]⟩

/-- A resource carrying `Identifier{system: http://example.org, value: 124}`. -/
def resB : ResourceModel :=
  ⟨"Patient", "B", [⟨identParam, [.identifier (some ⟨some "http://example.org", some "124"⟩)], []⟩]⟩

/-- The token table after indexing `resA` and `resB`. -/
def tableC5 : List Row := indexResource (indexResource [] resA true) resB true

/-- The round-trip filter `identifier eq http://example.org|123`. -/
def filterC5 : Filter := ⟨"identifier", .EQUALS, "http://example.org|123"⟩

/-- The filter `c not-equals X`. -/
def filterNE : Filter := ⟨"c", .NOT_EQUALS, "X"⟩

/-- A table where resource `A` has exactly one token for code `c`, with value `X`. -/
def tableC6 : List Row := [⟨"A", "c", some "s", some "X"⟩]

/-- A resource whose CodeableConcept holds two codings whose codes differ only by
a trailing space (`x` versus `x `). -/
def resC2 : ResourceModel :=
  ⟨"Patient", "A",
    [⟨ccParam,
      [.codeableConcept (some ⟨none, some [⟨some "s", some "x", none⟩, ⟨some "s", some "x ", none⟩]⟩)],
      []⟩]⟩

/-- A resource whose Coding has a whitespace-only system and no code. -/
def resC3 : ResourceModel :=
  ⟨"Patient", "A", [⟨codingParam, [.coding (some ⟨some " ", none, none⟩)], []⟩]⟩

/-- A ContactPoint-typed token search parameter (hence case-insensitive). -/
def cpParam : SearchParam := ⟨"email", "token", [[.contactPoint]]⟩

/-- The filter context compiling the filter `email eq  A` for the
case-insensitive parameter `cpParam` (the raw option carries a leading space). -/
def ctxC8 : FilterContext :=
  ⟨cpParam, "T", isCaseSensitiveSearchParameter cpParam, ⟨"email", .EQUALS, " A"⟩⟩

/-- The filter context of the `identifier`-operator filter with value `a,b,c`. -/
def ctxC7 : FilterContext := ⟨ccParam, "Patient_Token", true, ⟨"code", .IDENTIFIER, "a,b,c"⟩⟩

/-! ## Helper lemmas: strings and splitting -/

theorem mem_data_of_lowerString {v w : String} (h : lowerString v = w) {c : Char}
    (hc : c ∈ v.data) : c.toLower ∈ w.data := by
  subst h
  exact List.mem_map_of_mem Char.toLower hc

theorem not_mem_data_of_lowerString {v w : String} (h : lowerString v = w) {c : Char}
    (hfix : c.toLower = c) (hw : c ∉ w.data) : c ∉ v.data := fun hc =>
  hw (hfix ▸ mem_data_of_lowerString h hc)

theorem splitOnCommaAux_no_comma {l : List Char} (h : ',' ∉ l) (acc : List Char) :
    splitOnCommaAux acc l = [acc.reverse ++ l] := by
  induction l generalizing acc with
  | nil => simp [splitOnCommaAux]
  | cons c rest ih =>
    have hc : c ≠ ',' := by rintro rfl; exact h (List.mem_cons_self _ _)
    have hrest : ',' ∉ rest := fun m => h (List.mem_cons_of_mem c m)
    cases rest with
    | nil => simp [splitOnCommaAux, hc]
    | cons d rest2 =>
      have hd : ¬(c = '\\' ∧ d = ',') := fun hcd =>
        hrest (hcd.2 ▸ List.mem_cons_self d rest2)
      rw [splitOnCommaAux, if_neg hd, if_neg hc, ih hrest]
      simp

theorem splitSearchOnComma_no_comma {s : String} (h : ',' ∉ s.data) :
    splitSearchOnComma s = [s] := by
  simp [splitSearchOnComma, splitOnCommaAux_no_comma h]

theorem splitOnceChars_eq_none {delim : Char} {l : List Char} (h : delim ∉ l) :
    splitOnceChars delim l = none := by
  induction l with
  | nil => rfl
  | cons c rest ih =>
    have hc : c ≠ delim := by rintro rfl; exact h (List.mem_cons_self _ _)
    simp [splitOnceChars, hc, ih fun m => h (List.mem_cons_of_mem c m)]

theorem splitN_two_no_delim {s : String} {delim : Char} (h : delim ∉ s.data) :
    splitN s delim 2 = [s] := by
  simp [splitN, splitOnceChars_eq_none h]

/-! ## Helper lemmas: trimming -/

theorem head_dropWhile_not {α : Type} {p : α → Bool} :
    ∀ {l : List α} {x : α} {xs : List α}, l.dropWhile p = x :: xs → p x = false := by
  intro l
  induction l with
  | nil => intro x xs h; simp [List.dropWhile] at h
  | cons c rest ih =>
    intro x xs h
    rw [List.dropWhile_cons] at h
    split at h
    · exact ih h
    · cases h
      rename_i hnp
      cases hpc : p c
      · rfl
      · exact absurd hpc hnp

theorem dropWhile_sfx {α : Type} (p : α → Bool) (l : List α) : l.dropWhile p <:+ l := by
  induction l with
  | nil => exact List.suffix_refl _
  | cons c rest ih =>
    rw [List.dropWhile_cons]
    split
    · exact ih.trans (List.suffix_cons c rest)
    · exact List.suffix_refl _

theorem dropWhile_reverse_pfx {α : Type} (p : α → Bool) (l : List α) :
    (l.reverse.dropWhile p).reverse <+: l := by
  have h := dropWhile_sfx p l.reverse
  rw [← List.reverse_reverse (l.reverse.dropWhile p)] at h
  exact List.reverse_suffix.mp (by simpa using h)

theorem trimChars_head_not {l : List Char} {x : Char} {xs : List Char}
    (h : trimChars l = x :: xs) : x.isWhitespace = false := by
  have hpfx : trimChars l <+: l.dropWhile Char.isWhitespace :=
    dropWhile_reverse_pfx Char.isWhitespace (l.dropWhile Char.isWhitespace)
  rw [h] at hpfx
  obtain ⟨t, ht⟩ := hpfx
  exact head_dropWhile_not (l := l) (by rw [← ht]; rfl)

theorem trimChars_reverse_head_not {l : List Char} {x : Char} {xs : List Char}
    (h : (trimChars l).reverse = x :: xs) : x.isWhitespace = false := by
  rw [trimChars, List.reverse_reverse] at h
  exact head_dropWhile_not h

theorem trimChars_idem (l : List Char) : trimChars (trimChars l) = trimChars l := by
  have h1 : (trimChars l).dropWhile Char.isWhitespace = trimChars l := by
    match hm : trimChars l with
    | [] => rfl
    | x :: xs => rw [List.dropWhile_cons, trimChars_head_not hm]; simp
  have h2 : (trimChars l).reverse.dropWhile Char.isWhitespace = (trimChars l).reverse := by
    match hm : (trimChars l).reverse with
    | [] => rfl
    | x :: xs => rw [List.dropWhile_cons, trimChars_reverse_head_not hm]; simp
  rw [trimChars, h1, h2, List.reverse_reverse]

theorem trimString_idem (s : String) : trimString (trimString s) = trimString s :=
  congrArg String.mk (trimChars_idem s.data)

/-! ## Helper lemmas: token extraction -/

theorem mem_buildSimpleToken_of_mem {result : List Token} {t : Token} (h : t ∈ result)
    (searchParam : SearchParam) (caseSensitive : Bool) (system value : Option String) :
    t ∈ buildSimpleToken result searchParam caseSensitive system value := by
  unfold buildSimpleToken
  split
  · exact List.mem_append_left _ h
  · exact h

theorem buildSimpleToken_skip {result : List Token} {searchParam : SearchParam}
    {caseSensitive : Bool} {system value : Option String}
    (h : ∃ t ∈ result, t.code = searchParam.code ∧ t.system = system ∧ t.value = value) :
    buildSimpleToken result searchParam caseSensitive system value = result := by
  obtain ⟨t, ht, h1, h2, h3⟩ := h
  have hany : (result.any fun t => t.code == searchParam.code && t.system == system
      && t.value == value) = true :=
    List.any_eq_true.mpr ⟨t, ht, by simp [h1, h2, h3]⟩
  unfold buildSimpleToken
  rw [if_neg]
  simp [hany]

theorem buildSimpleToken_mem_out {result : List Token} {searchParam : SearchParam}
    {caseSensitive : Bool} {system value : Option String} (hv : strTruthy value = true) :
    ∃ t ∈ buildSimpleToken result searchParam caseSensitive system value,
      t.code = searchParam.code ∧ t.system = system
        ∧ (t.value = value ∨ t.value = value.map lowerString) := by
  unfold buildSimpleToken
  by_cases hany : (result.any fun t => t.code == searchParam.code && t.system == system
      && t.value == value) = true
  · obtain ⟨t, ht, hp⟩ := List.any_eq_true.mp hany
    simp only [Bool.and_eq_true, beq_iff_eq] at hp
    refine ⟨t, ?_, hp.1.1, hp.1.2, Or.inl hp.2⟩
    split
    · exact List.mem_append_left _ ht
    · exact ht
  · rw [if_pos (by simp [hv, hany])]
    refine ⟨_, List.mem_append_right _ (List.mem_cons_self _ _), rfl, rfl, ?_⟩
    by_cases hcs : caseSensitive
    · simp [hcs]
    · simp [hv, hcs]

theorem mem_buildCodingToken_of_mem {result : List Token} {t : Token} (h : t ∈ result)
    (searchParam : SearchParam) (caseSensitive : Bool) (coding : Option Coding) :
    t ∈ buildCodingToken result searchParam caseSensitive coding := by
  unfold buildCodingToken
  match coding with
  | none => exact h
  | some c =>
    apply mem_buildSimpleToken_of_mem
    split
    · exact mem_buildSimpleToken_of_mem h _ _ _ _
    · exact h

theorem mem_foldl_buildCodingToken_of_mem {t : Token} (searchParam : SearchParam)
    (caseSensitive : Bool) (codings : List Coding) :
    ∀ {result : List Token}, t ∈ result →
      t ∈ codings.foldl (fun acc c => buildCodingToken acc searchParam caseSensitive (some c))
        result := by
  induction codings with
  | nil => intro result h; exact h
  | cons c cs ih =>
    intro result h
    exact ih (mem_buildCodingToken_of_mem h _ _ _)

/-! ## Helper lemmas: the extracted queue has no duplicates when every push is
case-sensitive (a case-sensitive push stores exactly the tuple the dedup check
looked for) -/

theorem nodup_buildSimpleToken_cs {result : List Token} {searchParam : SearchParam}
    {system value : Option String} (h : result.Nodup) :
    (buildSimpleToken result searchParam true system value).Nodup := by
  unfold buildSimpleToken
  split
  · rename_i hcond
    simp only [Bool.and_eq_true, Bool.not_eq_true'] at hcond
    rw [List.nodup_append]
    refine ⟨h, List.nodup_singleton _, ?_⟩
    intro t ht hm
    rw [List.mem_singleton] at hm
    subst hm
    have hf := List.any_eq_false.mp hcond.2 _ ht
    simp at hf
  · exact h

theorem nodup_buildIdentifierToken_cs {result : List Token} {searchParam : SearchParam}
    {identifier : Option Identifier} (h : result.Nodup) :
    (buildIdentifierToken result searchParam true identifier).Nodup := by
  unfold buildIdentifierToken
  exact nodup_buildSimpleToken_cs h

theorem nodup_buildCodingToken_cs {result : List Token} {searchParam : SearchParam}
    {coding : Option Coding} (h : result.Nodup) :
    (buildCodingToken result searchParam true coding).Nodup := by
  unfold buildCodingToken
  match coding with
  | none => exact h
  | some c =>
    apply nodup_buildSimpleToken_cs
    split
    · exact nodup_buildSimpleToken_cs h
    · exact h

theorem nodup_foldl_buildCodingToken_cs {searchParam : SearchParam} (codings : List Coding) :
    ∀ {result : List Token}, result.Nodup →
      (codings.foldl (fun acc c => buildCodingToken acc searchParam true (some c)) result).Nodup := by
  induction codings with
  | nil => intro result h; exact h
  | cons c cs ih => intro result h; exact ih (nodup_buildCodingToken_cs h)

theorem nodup_buildCodeableConceptToken_cs {result : List Token} {searchParam : SearchParam}
    {codeableConcept : Option CodeableConcept} (h : result.Nodup) :
    (buildCodeableConceptToken result searchParam true codeableConcept).Nodup := by
  unfold buildCodeableConceptToken
  dsimp only
  have h1 : (if strTruthy (codeableConcept.bind (·.text)) then
      buildSimpleToken result searchParam true (some "text") (codeableConcept.bind (·.text))
    else result).Nodup := by
    split
    · exact nodup_buildSimpleToken_cs h
    · exact h
  split
  · exact nodup_foldl_buildCodingToken_cs _ h1
  · exact h1

theorem nodup_buildContactPointToken_cs {result : List Token} {searchParam : SearchParam}
    {contactPoint : Option ContactPoint} (h : result.Nodup) :
    (buildContactPointToken result searchParam true contactPoint).Nodup := by
  unfold buildContactPointToken
  exact nodup_buildSimpleToken_cs h

theorem nodup_buildTokens {result : List Token} {searchParam : SearchParam} {tv : TypedValue}
    (h : result.Nodup) (hcs : isCaseSensitiveSearchParameter searchParam = true) :
    (buildTokens result searchParam tv).Nodup := by
  unfold buildTokens
  rw [hcs]
  cases tv with
  | identifier v => exact nodup_buildIdentifierToken_cs h
  | codeableConcept v => exact nodup_buildCodeableConceptToken_cs h
  | coding v => exact nodup_buildCodingToken_cs h
  | contactPoint v => exact nodup_buildContactPointToken_cs h
  | scalar v => exact nodup_buildSimpleToken_cs h

theorem nodup_buildTokensForSearchParameter {searchParam : SearchParam}
    (hcs : isCaseSensitiveSearchParameter searchParam = true) (tvs : List TypedValue) :
    ∀ {result : List Token}, result.Nodup →
      (buildTokensForSearchParameter result searchParam tvs).Nodup := by
  unfold buildTokensForSearchParameter
  induction tvs with
  | nil => intro result h; exact h
  | cons tv tvs ih => intro result h; exact ih (nodup_buildTokens h hcs)

theorem getTokenIndexType_deriveIdentifier (p : SearchParam) :
    getTokenIndexType (deriveIdentifierSearchParameter p) = some .caseSensitive := by
  have he : endsWithString (p.code ++ ":identifier") ":identifier" = true := by
    unfold endsWithString
    rw [List.isSuffixOf_iff_suffix, String.data_append]
    exact List.suffix_append _ _
  unfold getTokenIndexType deriveIdentifierSearchParameter
  simp [he]

theorem caseSensitive_of_not_insensitive {p : SearchParam}
    (h : getTokenIndexType p ≠ some TokenIndexType.caseInsensitive)
    (hsome : (getTokenIndexType p).isSome) : isCaseSensitiveSearchParameter p = true := by
  unfold isCaseSensitiveSearchParameter
  cases ht : getTokenIndexType p with
  | none => rw [ht] at hsome; simp at hsome
  | some t =>
    cases t with
    | caseSensitive => simp
    | caseInsensitive => exact absurd ht h

theorem nodup_getTokens_aux (ps : List ParamEval) :
    ∀ init : List Token, init.Nodup →
      (∀ pe ∈ ps, getTokenIndexType pe.param ≠ some TokenIndexType.caseInsensitive) →
      (ps.foldl
        (fun result pe =>
          let result := if (getTokenIndexType pe.param).isSome then
              buildTokensForSearchParameter result pe.param pe.typedValues
            else result
          if pe.param.type = "reference" then
            buildTokensForSearchParameter result (deriveIdentifierSearchParameter pe.param)
              pe.derivedTypedValues
          else result)
        init).Nodup := by
  induction ps with
  | nil => intro init hi _; exact hi
  | cons pe ps ih =>
    intro init hi hall
    rw [List.foldl_cons]
    apply ih _ ?_ fun q hq => hall q (List.mem_cons_of_mem _ hq)
    dsimp only
    have h1 : (if (getTokenIndexType pe.param).isSome then
        buildTokensForSearchParameter init pe.param pe.typedValues
      else init).Nodup := by
      split
      · rename_i hsome
        exact nodup_buildTokensForSearchParameter
          (caseSensitive_of_not_insensitive (hall pe (List.mem_cons_self _ _)) hsome) _ hi
      · exact hi
    split
    · apply nodup_buildTokensForSearchParameter _ _ h1
      unfold isCaseSensitiveSearchParameter
      rw [getTokenIndexType_deriveIdentifier]
      simp
    · exact h1

theorem nodup_getTokens {resource : ResourceModel}
    (h : ∀ pe ∈ resource.params, getTokenIndexType pe.param ≠ some TokenIndexType.caseInsensitive) :
    (getTokens resource).Nodup := by
  unfold getTokens
  exact nodup_getTokens_aux resource.params [] List.nodup_nil h

/-! ## Helper lemmas: evaluation of compiled predicates -/

theorem evalPredicate_neg (vs : String → Option (List String)) (rtbl resId : String)
    (table : List Row) (e : SqlExpr) :
    evalPredicate vs rtbl resId table (.neg e) = !evalPredicate vs rtbl resId table e := rfl

theorem evalPredicate_baseExists (vs : String → Option (List String)) (rtbl resId : String)
    (table : List Row) (tok c : String) :
    evalPredicate vs rtbl resId table
      (.existsQuery tok (.conj [.colEqCol rtbl "id" tok "resourceId",
        .colEqVal tok "code" (some c)]))
      = table.any fun r => resId == r.resourceId && r.code == c := by
  unfold evalPredicate
  simp only [evalExpr, evalExprAll, lookupCol]
  simp

theorem no_special_of_lower_bool {v : String}
    (h : lowerString v = "true" ∨ lowerString v = "false") :
    ',' ∉ v.data ∧ '|' ∉ v.data := by
  rcases h with h | h <;>
    exact ⟨not_mem_data_of_lowerString h (by decide) (by decide),
           not_mem_data_of_lowerString h (by decide) (by decide)⟩

theorem buildWhereCondition_none_mp {ctx : FilterContext}
    (hop : ctx.filter.operator = .MISSING ∨ ctx.filter.operator = .PRESENT)
    (hnp : '|' ∉ ctx.filter.value.data) :
    buildWhereCondition ctx ctx.filter.value = none := by
  unfold buildWhereCondition
  rw [splitN_two_no_delim hnp]
  rcases hop with h | h <;> simp [h, shouldCompareTokenValue]

theorem buildWhereExpression_none_mp {ctx : FilterContext}
    (hop : ctx.filter.operator = .MISSING ∨ ctx.filter.operator = .PRESENT)
    (hnc : ',' ∉ ctx.filter.value.data) (hnp : '|' ∉ ctx.filter.value.data) :
    buildWhereExpression ctx = none := by
  unfold buildWhereExpression
  rw [splitSearchOnComma_no_comma hnc]
  simp [buildWhereCondition_none_mp hop hnp]

theorem buildWhereCondition_cmp {ctx : FilterContext} {q : String}
    (hnp : '|' ∉ q.data) (hin : ctx.filter.operator ≠ .IN)
    (hnin : ctx.filter.operator ≠ .NOT_IN)
    (hcmp : shouldCompareTokenValue ctx.filter.operator = true) :
    buildWhereCondition ctx q = some (buildValueCondition ctx q) := by
  unfold buildWhereCondition
  rw [splitN_two_no_delim hnp]
  simp [hin, hnin, hcmp]

theorem buildWhereExpression_abc (param : SearchParam) (tok : String) (cs : Bool)
    (code : String) (op : FhirOperator) (hin : op ≠ .IN) (hnin : op ≠ .NOT_IN)
    (hcmp : shouldCompareTokenValue op = true) :
    buildWhereExpression ⟨param, tok, cs, ⟨code, op, "a,b,c"⟩⟩
      = some (.disj [buildValueCondition ⟨param, tok, cs, ⟨code, op, "a,b,c"⟩⟩ "a",
                     buildValueCondition ⟨param, tok, cs, ⟨code, op, "a,b,c"⟩⟩ "b",
                     buildValueCondition ⟨param, tok, cs, ⟨code, op, "a,b,c"⟩⟩ "c"]) := by
  unfold buildWhereExpression
  rw [show splitSearchOnComma "a,b,c" = ["a", "b", "c"] from rfl]
  rw [List.filterMap_cons, List.filterMap_cons, List.filterMap_cons, List.filterMap_nil]
  rw [@buildWhereCondition_cmp ⟨param, tok, cs, ⟨code, op, "a,b,c"⟩⟩ "a" (by decide) hin hnin hcmp,
      @buildWhereCondition_cmp ⟨param, tok, cs, ⟨code, op, "a,b,c"⟩⟩ "b" (by decide) hin hnin hcmp,
      @buildWhereCondition_cmp ⟨param, tok, cs, ⟨code, op, "a,b,c"⟩⟩ "c" (by decide) hin hnin hcmp]

theorem tokenExistsExpression_base {rt rtbl : String} {param : SearchParam} {filter : Filter}
    (hnone : buildWhereExpression
      { searchParam := param, lookupTableName := getTableName rt
        caseSensitive := isCaseSensitiveSearchParameter param, filter := filter } = none) :
    tokenExistsExpression rt rtbl param filter
      = .existsQuery (getTableName rt)
          (.conj [.colEqCol rtbl "id" (getTableName rt) "resourceId",
                  .colEqVal (getTableName rt) "code" (some filter.code)]) := by
  unfold tokenExistsExpression
  dsimp only
  rw [hnone]
  rfl

/-! ## Claim theorems -/

/-- C5: round trip — indexing a resource carrying
`Identifier{system: http://example.org, value: 123}` and compiling `buildWhere`
for that parameter with operator EQUALS and raw value `http://example.org|123`
yields a predicate that matches the indexed resource and does not match a
resource indexed with value `124`. -/
theorem C5_round_trip :
    getTokens resA = [⟨"identifier", some "http://example.org", some "123"⟩]
    ∧ (buildWhere "Patient" "Patient" identParam filterC5).map
        (fun e => (evalPredicate noValueSets "Patient" "A" tableC5 e,
                   evalPredicate noValueSets "Patient" "B" tableC5 e)) = .ok (true, false) :=
  ⟨rfl, rfl⟩

/-- C9: with `isCreate = false`, `indexResource` first deletes every existing
row of the resource and then inserts the freshly extracted token set, so an
update replaces the full prior set; with `isCreate = true` no delete is
performed. -/
theorem C9_delete_then_insert (table : List Row) (resource : ResourceModel) :
    indexResource table resource false
      = table.filter (fun r => r.resourceId ≠ resource.id)
        ++ (getTokens resource).map (storeTokenRow resource.id)
    ∧ indexResource table resource true
      = table ++ (getTokens resource).map (storeTokenRow resource.id)
    ∧ (∀ r ∈ indexResource table resource false, r.resourceId = resource.id →
        r ∈ (getTokens resource).map (storeTokenRow resource.id)) := by
  refine ⟨rfl, rfl, ?_⟩
  intro r hr hid
  unfold indexResource at hr
  rcases List.mem_append.mp hr with h | h
  · exact absurd hid (by simpa using (List.mem_filter.mp h).2)
  · exact h

/-- C9 witness: concrete update replacing a stale row of resource `A` while
keeping resource `B`'s row. -/
theorem C9_witness :
    indexResource [⟨"A", "identifier", some "s", some "old"⟩, ⟨"B", "c", none, some "keep"⟩]
        resA false
      = [⟨"B", "c", none, some "keep"⟩]
        ++ (getTokens resA).map (storeTokenRow "A")
    ∧ (⟨"A", "identifier", some "http://example.org", some "123"⟩ : Row)
        ∈ (getTokens resA).map (storeTokenRow "A") := by
  refine ⟨(C9_delete_then_insert _ resA).1, ?_⟩
  exact (C9_delete_then_insert
      [⟨"A", "identifier", some "s", some "old"⟩, ⟨"B", "c", none, some "keep"⟩] resA).2.2
    ⟨"A", "identifier", some "http://example.org", some "123"⟩ (by decide) rfl

/-- C10: a token search parameter whose code ends with `:identifier` is
classified case-sensitive unconditionally — for every element-type metadata,
including empty metadata — so its values are stored without lower-casing and
compared with a single exact equality. -/
theorem C10_identifier_suffix_case_sensitive (param : SearchParam)
    (htype : param.type = "token") (hsuffix : endsWithString param.code ":identifier" = true) :
    getTokenIndexType param = some .caseSensitive
    ∧ isCaseSensitiveSearchParameter param = true
    ∧ (∀ (result : List Token) (system value : Option String),
        buildSimpleToken result param (isCaseSensitiveSearchParameter param) system value = result
        ∨ buildSimpleToken result param (isCaseSensitiveSearchParameter param) system value
            = result ++ [⟨param.code, system, value⟩])
    ∧ (∀ (lookupTableName : String) (filter : Filter) (v : String),
        filter.operator ≠ .TEXT → filter.operator ≠ .CONTAINS →
        buildValueCondition ⟨param, lookupTableName, isCaseSensitiveSearchParameter param, filter⟩ v
          = .colEqVal lookupTableName "value" (some (trimString v))) := by
  have h1 : getTokenIndexType param = some .caseSensitive := by
    unfold getTokenIndexType
    simp [htype, hsuffix]
  have h2 : isCaseSensitiveSearchParameter param = true := by
    unfold isCaseSensitiveSearchParameter
    simp [h1]
  refine ⟨h1, h2, ?_, ?_⟩
  · intro result system value
    rw [h2]
    unfold buildSimpleToken
    split
    · right; simp
    · left; rfl
  · intro lookupTableName filter v ht hc
    unfold buildValueCondition
    dsimp only
    rw [if_neg ht, if_neg hc, if_pos h2]

/-- C10 witness: the classification at a concrete derived parameter with empty
element-type metadata. -/
theorem C10_witness :
    getTokenIndexType ⟨"subject:identifier", "token", []⟩ = some .caseSensitive
    ∧ isCaseSensitiveSearchParameter ⟨"subject:identifier", "token", []⟩ = true :=
  ⟨(C10_identifier_suffix_case_sensitive ⟨"subject:identifier", "token", []⟩ rfl (by decide)).1,
   (C10_identifier_suffix_case_sensitive ⟨"subject:identifier", "token", []⟩ rfl (by decide)).2.1⟩

/-- C2 counterexample: for the resource `resC2` (two codings whose codes differ
only by a trailing space) the stored rows contain two tokens that are
bit-identical on (code, system, value), so the claimed invariant fails after
the trim normalization applied by `indexResource`. -/
theorem C2_counterexample :
    ¬ ((indexResource [] resC2 true).map fun r => (r.code, r.system, r.value)).Nodup := by
  decide

/-- C2 (amended): a candidate tuple is skipped when an identical raw
(code, system, value) tuple is already queued; when no applicable parameter is
classified case-insensitive the extracted token list holds no two bit-identical
tokens.  (The dedup does not survive the trim normalization of `indexResource`:
distinct raw tuples may be stored as bit-identical rows.) -/
theorem C2_dedup_amended :
    (∀ (result : List Token) (searchParam : SearchParam) (caseSensitive : Bool)
        (system value : Option String),
        (∃ t ∈ result, t.code = searchParam.code ∧ t.system = system ∧ t.value = value) →
        buildSimpleToken result searchParam caseSensitive system value = result)
    ∧ (∀ resource : ResourceModel,
        (∀ pe ∈ resource.params, getTokenIndexType pe.param ≠ some TokenIndexType.caseInsensitive) →
        (getTokens resource).Nodup) :=
  ⟨fun _ _ _ _ _ h => buildSimpleToken_skip h, fun _ h => nodup_getTokens h⟩

/-- C2 witness: the skip behavior and the duplicate-free extraction at concrete
inputs. -/
theorem C2_witness :
    buildSimpleToken [⟨"c", some "s", some "v"⟩] ⟨"c", "token", [[.coding]]⟩ true
        (some "s") (some "v") = [⟨"c", some "s", some "v"⟩]
    ∧ (getTokens resA).Nodup :=
  ⟨C2_dedup_amended.1 _ _ _ _ _ ⟨⟨"c", some "s", some "v"⟩, by decide, rfl, rfl, rfl⟩,
   C2_dedup_amended.2 resA (by decide)⟩

/-- C3 counterexample: indexing `resC3` (whitespace-only system, absent code)
stores a row whose system and value are both absent, violating the claimed
"at least one of system/value present" invariant. -/
theorem C3_counterexample :
    ¬ (∀ r ∈ indexResource [] resC3 true, r.system ≠ none ∨ r.value ≠ none) := by
  decide

/-- C3 (amended): every row stored by `indexResource` is the image of an
extracted token under the trim-and-drop normalization; a stored system or value
is never the empty string, and a present one is trimmed and non-empty.  (At
least one of system/value was truthy at extraction time, but — as the
counterexample shows — a whitespace-only system or value can produce a stored
row with both absent.) -/
theorem C3_normalization_amended :
    (∀ (table : List Row) (resource : ResourceModel) (create : Bool) (r : Row),
        r ∈ indexResource table resource create →
        r ∈ (if create then table else table.filter fun x => x.resourceId ≠ resource.id)
          ∨ ∃ t ∈ getTokens resource, r = storeTokenRow resource.id t)
    ∧ (∀ o : Option String, jsTrimOrNull o ≠ some "")
    ∧ (∀ (o : Option String) (s : String), jsTrimOrNull o = some s →
        trimString s = s ∧ s ≠ "") := by
  refine ⟨?_, ?_, ?_⟩
  · intro table resource create r hr
    unfold indexResource at hr
    rcases List.mem_append.mp hr with h | h
    · exact Or.inl h
    · obtain ⟨t, ht, heq⟩ := List.mem_map.mp h
      exact Or.inr ⟨t, ht, heq.symm⟩
  · intro o
    match o with
    | none => simp [jsTrimOrNull]
    | some s =>
      unfold jsTrimOrNull
      dsimp only
      split
      · simp
      · rename_i hne
        simp [hne]
  · intro o s h
    match o with
    | none => exact absurd h (by simp [jsTrimOrNull])
    | some s0 =>
      unfold jsTrimOrNull at h
      dsimp only at h
      split at h
      · exact absurd h (by simp)
      · rename_i hne
        cases h
        exact ⟨trimString_idem s0, hne⟩

/-- C3 witness: the normalization facts at concrete inputs. -/
theorem C3_witness :
    ((⟨"A", "code", some "s", some "x"⟩ : Row)
        ∈ [(⟨"A", "code", some "s", some "x"⟩ : Row)]
      ∨ ∃ t ∈ getTokens resC2, (⟨"A", "code", some "s", some "x"⟩ : Row) = storeTokenRow "A" t)
    ∧ (trimString "x" = "x" ∧ "x" ≠ "") :=
  ⟨C3_normalization_amended.1 [⟨"A", "code", some "s", some "x"⟩] resC2 true
      ⟨"A", "code", some "s", some "x"⟩ (by decide),
   C3_normalization_amended.2.2 (some " x ") "x" (by decide)⟩

/-- C8 counterexample: for the case-insensitive context `ctxC8` and the raw
option ` A` (leading space) the compiled IN-set holds the trimmed option and
its lower-casing, not the literal option and its lower-casing as claimed. -/
theorem C8_counterexample :
    buildValueCondition ctxC8 " A" = .colIn "T" "value" ["A", "a"]
    ∧ ([" A", lowerString " A"] : List String) ≠ ["A", "a"] :=
  ⟨rfl, by decide⟩

/-- C8 (amended): for an exact-token-equality option (operator neither `text`
nor `contains`), the compiled value condition is `value = trim(option)` when
case-sensitive, and `value IN (trim(option), lower(trim(option)))` — a
two-element IN-set, not a single lower-cased comparison — when
case-insensitive. -/
theorem C8_exact_token_equality (ctx : FilterContext) (v : String)
    (ht : ctx.filter.operator ≠ .TEXT) (hc : ctx.filter.operator ≠ .CONTAINS) :
    buildValueCondition ctx v
      = if ctx.caseSensitive then
          .colEqVal ctx.lookupTableName "value" (some (trimString v))
        else
          .colIn ctx.lookupTableName "value" [trimString v, lowerString (trimString v)] := by
  unfold buildValueCondition
  dsimp only
  rw [if_neg ht, if_neg hc]

/-- C8 witness: the two shapes at concrete contexts. -/
theorem C8_witness :
    buildValueCondition ctxC8 "B"
      = .colIn "T" "value" [trimString "B", lowerString (trimString "B")]
    ∧ buildValueCondition ⟨ccParam, "T", isCaseSensitiveSearchParameter ccParam,
          ⟨"code", .EQUALS, "B"⟩⟩ "B"
      = .colEqVal "T" "value" (some (trimString "B")) :=
  ⟨C8_exact_token_equality ctxC8 "B" (by decide) (by decide),
   C8_exact_token_equality ⟨ccParam, "T", isCaseSensitiveSearchParameter ccParam,
      ⟨"code", .EQUALS, "B"⟩⟩ "B" (by decide) (by decide)⟩

/-- C4: for a `missing` / `present` filter, `buildWhere` fails with
`InvalidFilterValue` whenever the raw value is (case-insensitively) neither
`true` nor `false`; `missing=true` / `present=false` compile to a negated
existence test selecting resources with zero tokens for the code, and
`missing=false` / `present=true` compile to an EXISTS test selecting resources
with at least one token for the code. -/
theorem C4_missing_present (rt rtbl : String) (param : SearchParam) (filter : Filter)
    (hop : filter.operator = .MISSING ∨ filter.operator = .PRESENT) :
    (lowerString filter.value ≠ "true" → lowerString filter.value ≠ "false" →
      buildWhere rt rtbl param filter = .error .invalidFilterValue)
    ∧ ((filter.operator = .MISSING ∧ lowerString filter.value = "true")
        ∨ (filter.operator = .PRESENT ∧ lowerString filter.value = "false") →
      buildWhere rt rtbl param filter
        = .ok (.neg (.existsQuery (getTableName rt)
            (.conj [.colEqCol rtbl "id" (getTableName rt) "resourceId",
                    .colEqVal (getTableName rt) "code" (some filter.code)])))
      ∧ ∀ (vs : String → Option (List String)) (table : List Row) (resId : String),
          evalPredicate vs rtbl resId table
            (.neg (.existsQuery (getTableName rt)
              (.conj [.colEqCol rtbl "id" (getTableName rt) "resourceId",
                      .colEqVal (getTableName rt) "code" (some filter.code)])))
            = !(table.any fun r => resId == r.resourceId && r.code == filter.code))
    ∧ ((filter.operator = .MISSING ∧ lowerString filter.value = "false")
        ∨ (filter.operator = .PRESENT ∧ lowerString filter.value = "true") →
      buildWhere rt rtbl param filter
        = .ok (.existsQuery (getTableName rt)
            (.conj [.colEqCol rtbl "id" (getTableName rt) "resourceId",
                    .colEqVal (getTableName rt) "code" (some filter.code)]))
      ∧ ∀ (vs : String → Option (List String)) (table : List Row) (resId : String),
          evalPredicate vs rtbl resId table
            (.existsQuery (getTableName rt)
              (.conj [.colEqCol rtbl "id" (getTableName rt) "resourceId",
                      .colEqVal (getTableName rt) "code" (some filter.code)]))
            = (table.any fun r => resId == r.resourceId && r.code == filter.code)) := by
  have hncmp : shouldCompareTokenValue filter.operator = false := by
    rcases hop with h | h <;> simp [h, shouldCompareTokenValue]
  refine ⟨?_, ?_, ?_⟩
  · intro h1 h2
    unfold buildWhere
    have herr : shouldTokenRowExist filter = .error .invalidFilterValue := by
      unfold shouldTokenRowExist
      rcases hop with h | h <;> simp [h, shouldCompareTokenValue, h1, h2]
    rw [herr]
  · intro hcase
    have hbool : lowerString filter.value = "true" ∨ lowerString filter.value = "false" := by
      rcases hcase with h | h
      · exact Or.inl h.2
      · exact Or.inr h.2
    obtain ⟨hnc, hnp⟩ := no_special_of_lower_bool hbool
    have hbase := @tokenExistsExpression_base rt rtbl param filter
      (buildWhereExpression_none_mp hop hnc hnp)
    have hrow : shouldTokenRowExist filter = .ok false := by
      unfold shouldTokenRowExist
      rcases hcase with ⟨h, hv⟩ | ⟨h, hv⟩ <;> simp [h, shouldCompareTokenValue, hv]
    constructor
    · unfold buildWhere
      rw [hrow, hbase]
    · intro vs table resId
      rw [evalPredicate_neg, evalPredicate_baseExists]
  · intro hcase
    have hbool : lowerString filter.value = "true" ∨ lowerString filter.value = "false" := by
      rcases hcase with h | h
      · exact Or.inr h.2
      · exact Or.inl h.2
    obtain ⟨hnc, hnp⟩ := no_special_of_lower_bool hbool
    have hbase := @tokenExistsExpression_base rt rtbl param filter
      (buildWhereExpression_none_mp hop hnc hnp)
    have hrow : shouldTokenRowExist filter = .ok true := by
      unfold shouldTokenRowExist
      rcases hcase with ⟨h, hv⟩ | ⟨h, hv⟩ <;> simp [h, shouldCompareTokenValue, hv]
    constructor
    · unfold buildWhere
      rw [hrow, hbase]
    · intro vs table resId
      rw [evalPredicate_baseExists]

/-- C4 witness: a malformed literal fails; `missing=TRUE` (case-insensitive)
compiles to the negated existence test and evaluates to false exactly when a
token for the code exists. -/
theorem C4_witness :
    buildWhere "Patient" "Patient" cParam ⟨"c", .MISSING, "bogus"⟩
      = .error .invalidFilterValue
    ∧ buildWhere "Patient" "Patient" cParam ⟨"c", .MISSING, "TRUE"⟩
      = .ok (.neg (.existsQuery "Patient_Token"
          (.conj [.colEqCol "Patient" "id" "Patient_Token" "resourceId",
                  .colEqVal "Patient_Token" "code" (some "c")])))
    ∧ evalPredicate noValueSets "Patient" "A" tableC6
        (.neg (.existsQuery "Patient_Token"
          (.conj [.colEqCol "Patient" "id" "Patient_Token" "resourceId",
                  .colEqVal "Patient_Token" "code" (some "c")])))
      = !(tableC6.any fun r => "A" == r.resourceId && r.code == "c") := by
  refine ⟨?_, ?_, ?_⟩
  · exact (C4_missing_present "Patient" "Patient" cParam ⟨"c", .MISSING, "bogus"⟩
      (Or.inl rfl)).1 (by decide) (by decide)
  · exact ((C4_missing_present "Patient" "Patient" cParam ⟨"c", .MISSING, "TRUE"⟩
      (Or.inl rfl)).2.1 (Or.inl ⟨rfl, by decide⟩)).1
  · exact ((C4_missing_present "Patient" "Patient" cParam ⟨"c", .MISSING, "TRUE"⟩
      (Or.inl rfl)).2.1 (Or.inl ⟨rfl, by decide⟩)).2 noValueSets tableC6 "A"

/-- C6: operators `not` and `not-equals` negate the EXISTS test while every
other value-comparing operator keeps it un-negated; concretely, `not-equals X`
excludes a resource whose only token for the code equals `X` and includes a
resource with no token for the code. -/
theorem C6_negation (rt rtbl : String) (param : SearchParam) (filter : Filter)
    (hcmp : shouldCompareTokenValue filter.operator = true) :
    ((filter.operator = .NOT ∨ filter.operator = .NOT_EQUALS) →
      buildWhere rt rtbl param filter = .ok (.neg (tokenExistsExpression rt rtbl param filter)))
    ∧ (¬(filter.operator = .NOT ∨ filter.operator = .NOT_EQUALS) →
      buildWhere rt rtbl param filter = .ok (tokenExistsExpression rt rtbl param filter))
    ∧ (buildWhere "Patient" "Patient" cParam filterNE).map
        (fun e => (evalPredicate noValueSets "Patient" "A" tableC6 e,
                   evalPredicate noValueSets "Patient" "B" tableC6 e)) = .ok (false, true) := by
  refine ⟨?_, ?_, rfl⟩
  · intro h
    unfold buildWhere
    have : shouldTokenRowExist filter = .ok false := by
      unfold shouldTokenRowExist
      rw [if_pos hcmp, if_pos h]
    rw [this]
  · intro h
    unfold buildWhere
    have : shouldTokenRowExist filter = .ok true := by
      unfold shouldTokenRowExist
      rw [if_pos hcmp, if_neg h]
    rw [this]

/-- C6 witness: the negated and un-negated shapes at concrete filters. -/
theorem C6_witness :
    buildWhere "Patient" "Patient" cParam filterNE
      = .ok (.neg (tokenExistsExpression "Patient" "Patient" cParam filterNE))
    ∧ buildWhere "Patient" "Patient" cParam ⟨"c", .EQUALS, "X"⟩
      = .ok (tokenExistsExpression "Patient" "Patient" cParam ⟨"c", .EQUALS, "X"⟩) :=
  ⟨(C6_negation "Patient" "Patient" cParam filterNE (by decide)).1 (Or.inr rfl),
   (C6_negation "Patient" "Patient" cParam ⟨"c", .EQUALS, "X"⟩ (by decide)).2.1 (by decide)⟩

/-- C7 counterexample: the filter with operator `identifier` and raw value
`a,b,c` compiles successfully, but its inner expression is absent — the EXISTS
holds only the two base correlation conditions, not a 3-way disjunction. -/
theorem C7_counterexample :
    buildWhereExpression ctxC7 = none
    ∧ buildWhere "Patient" "Patient" ccParam ⟨"code", .IDENTIFIER, "a,b,c"⟩
      = .ok (.existsQuery "Patient_Token"
          (.conj [.colEqCol "Patient" "id" "Patient_Token" "resourceId",
                  .colEqVal "Patient_Token" "code" (some "code")])) :=
  ⟨rfl, rfl⟩

/-- C7 (amended): `buildWhere` splits the raw value on unescaped commas and ORs
the per-option conditions — for every value-comparing operator the inner
expression compiled from raw value `a,b,c` is a 3-way disjunction, and with
operator EQUALS a resource holding a token for the code whose value equals any
one of the three options satisfies the predicate.  (Operators that compare no
value — `missing`, `present`, `identifier` — contribute no per-option
conditions.) -/
theorem C7_comma_disjunction (rt rtbl : String) (param : SearchParam) (op : FhirOperator)
    (code : String) (hcmp : shouldCompareTokenValue op = true) :
    (∃ e1 e2 e3, buildWhereExpression
        { searchParam := param, lookupTableName := getTableName rt
          caseSensitive := isCaseSensitiveSearchParameter param
          filter := ⟨code, op, "a,b,c"⟩ } = some (.disj [e1, e2, e3]))
    ∧ (∀ o ∈ (["a", "b", "c"] : List String), ∀ (table : List Row) (resId : String)
        (sys : Option String), (⟨resId, code, sys, some o⟩ : Row) ∈ table →
        (buildWhere rt rtbl param ⟨code, .EQUALS, "a,b,c"⟩).map
          (evalPredicate noValueSets rtbl resId table) = .ok true) := by
  constructor
  · have hin : op ≠ .IN := by rintro rfl; simp [shouldCompareTokenValue] at hcmp
    have hnin : op ≠ .NOT_IN := by rintro rfl; simp [shouldCompareTokenValue] at hcmp
    exact ⟨_, _, _, buildWhereExpression_abc param (getTableName rt)
      (isCaseSensitiveSearchParameter param) code op hin hnin hcmp⟩
  · intro o ho table resId sys hrow
    have hbw : buildWhere rt rtbl param ⟨code, .EQUALS, "a,b,c"⟩
        = .ok (tokenExistsExpression rt rtbl param ⟨code, .EQUALS, "a,b,c"⟩) := rfl
    rw [hbw]
    show Except.ok _ = _
    congr 1
    unfold tokenExistsExpression
    dsimp only
    rw [buildWhereExpression_abc param (getTableName rt)
      (isCaseSensitiveSearchParameter param) code .EQUALS (by decide) (by decide) rfl]
    unfold evalPredicate
    simp only [evalExpr]
    rw [List.any_eq_true]
    refine ⟨⟨resId, code, sys, some o⟩, hrow, ?_⟩
    simp only [evalExpr, evalExprAll, evalExprAny, lookupCol, List.cons_append, List.nil_append]
    have ho3 : o = "a" ∨ o = "b" ∨ o = "c" := by simpa using ho
    cases hcs : isCaseSensitiveSearchParameter param <;>
      rcases ho3 with rfl | rfl | rfl <;>
        simp [buildValueCondition, hcs, evalExpr, evalExprAll, evalExprAny, lookupCol,
          trimString, trimChars, lowerString]

/-- C7 witness: the 3-way disjunction and a concrete match on the middle
option. -/
theorem C7_witness :
    (∃ e1 e2 e3, buildWhereExpression
        { searchParam := ccParam, lookupTableName := getTableName "Patient"
          caseSensitive := isCaseSensitiveSearchParameter ccParam
          filter := ⟨"code", .EQUALS, "a,b,c"⟩ } = some (.disj [e1, e2, e3]))
    ∧ (buildWhere "Patient" "Patient" ccParam ⟨"code", .EQUALS, "a,b,c"⟩).map
        (evalPredicate noValueSets "Patient" "A" [⟨"A", "code", none, some "b"⟩]) = .ok true :=
  ⟨(C7_comma_disjunction "Patient" "Patient" ccParam .EQUALS "code" rfl).1,
   (C7_comma_disjunction "Patient" "Patient" ccParam .EQUALS "code" rfl).2 "b" (by decide)
      [⟨"A", "code", none, some "b"⟩] "A" none (by decide)⟩

/-- C1 counterexample: a CodeableConcept with text `hello` for the parameter
with code `code` yields the single token
(code: `code`, system: `text`, value: `hello`) — no token has code `text` with
an absent system, so the claimed token shape (code: `text`, system: none) is
wrong: `text` is the token's system marker, and the token's code is the search
parameter's code. -/
theorem C1_counterexample :
    buildCodeableConceptToken [] ccParam (isCaseSensitiveSearchParameter ccParam)
        (some ⟨some "hello", none⟩)
      = [⟨"code", some "text", some "hello"⟩]
    ∧ ¬ ∃ t ∈ buildCodeableConceptToken [] ccParam (isCaseSensitiveSearchParameter ccParam)
        (some ⟨some "hello", none⟩),
        t.code = "text" ∧ t.system = (none : Option String) ∧ t.value = some "hello" :=
  ⟨rfl, by decide⟩

/-- C1 (amended): for every indexed CodeableConcept whose `.text` is non-empty,
extraction queues (via `buildSimpleToken`, subject to dedup and case
normalization) one token (code: the parameter's code, system: `text`,
value: text) and then recurses into each contained Coding; for every Coding
whose `.display` is non-empty, one token (code: the parameter's code,
system: `text`, value: display) in addition to the
(system: coding.system, value: coding.code) token. -/
theorem C1_text_tokens (param : SearchParam) (cs : Bool) (result : List Token)
    (cc : CodeableConcept) (text : String) (htext : cc.text = some text) (hne : text ≠ "") :
    buildCodeableConceptToken result param cs (some cc)
      = (cc.coding.getD []).foldl (fun acc c => buildCodingToken acc param cs (some c))
          (buildSimpleToken result param cs (some "text") (some text))
    ∧ (∃ t ∈ buildCodeableConceptToken result param cs (some cc),
        t.code = param.code ∧ t.system = some "text"
          ∧ (t.value = some text ∨ t.value = some (lowerString text)))
    ∧ (∀ (coding : Coding) (display : String), coding.display = some display → display ≠ "" →
        buildCodingToken result param cs (some coding)
          = buildSimpleToken
              (buildSimpleToken result param cs (some "text") (some display))
              param cs coding.system coding.code
          ∧ ∃ t ∈ buildCodingToken result param cs (some coding),
              t.code = param.code ∧ t.system = some "text"
                ∧ (t.value = some display ∨ t.value = some (lowerString display))) := by
  have hb : ((some cc).bind fun x => x.text) = some text := htext
  have htr : strTruthy ((some cc).bind fun x => x.text) = true := by
    rw [hb]; simp [strTruthy, hne]
  have heq : buildCodeableConceptToken result param cs (some cc)
      = (cc.coding.getD []).foldl (fun acc c => buildCodingToken acc param cs (some c))
          (buildSimpleToken result param cs (some "text") (some text)) := by
    unfold buildCodeableConceptToken
    dsimp only
    rw [if_pos htr, hb]
    have hcodeq : ((some cc).bind fun x => x.coding) = cc.coding := rfl
    rw [hcodeq]
    cases hcod : cc.coding with
    | none => rfl
    | some l => rfl
  refine ⟨heq, ?_, ?_⟩
  · obtain ⟨t, ht, h1, h2, h3⟩ := @buildSimpleToken_mem_out result param cs (some "text")
      (some text) (by simp [strTruthy, hne])
    refine ⟨t, ?_, h1, h2, ?_⟩
    · rw [heq]
      exact mem_foldl_buildCodingToken_of_mem _ _ _ ht
    · rcases h3 with h3 | h3
      · exact Or.inl h3
      · exact Or.inr (by simpa using h3)
  · intro coding display hdisp hdne
    have htr2 : strTruthy coding.display = true := by rw [hdisp]; simp [strTruthy, hdne]
    have heqc : buildCodingToken result param cs (some coding)
        = buildSimpleToken (buildSimpleToken result param cs (some "text") (some display))
            param cs coding.system coding.code := by
      unfold buildCodingToken
      dsimp only
      rw [if_pos htr2, hdisp]
    refine ⟨heqc, ?_⟩
    obtain ⟨t, ht, h1, h2, h3⟩ := @buildSimpleToken_mem_out result param cs (some "text")
      (some display) (by simp [strTruthy, hdne])
    refine ⟨t, ?_, h1, h2, ?_⟩
    · rw [heqc]
      exact mem_buildSimpleToken_of_mem ht _ _ _ _
    · rcases h3 with h3 | h3
      · exact Or.inl h3
      · exact Or.inr (by simpa using h3)

/-- C1 witness: the text token at a concrete CodeableConcept. -/
theorem C1_witness :
    ∃ t ∈ buildCodeableConceptToken [] ccParam true (some ⟨some "hello", none⟩),
      t.code = ccParam.code ∧ t.system = some "text"
        ∧ (t.value = some "hello" ∨ t.value = some (lowerString "hello")) :=
  (C1_text_tokens ccParam true [] ⟨some "hello", none⟩ "hello" rfl (by decide)).2.1

end Medplum
